import Mathlib

/-!
Verification of the engagement-scoring and performance-classification engine
of the youtube-strategy repository.

The TypeScript sources are shallowly embedded: JavaScript numbers are modelled
as rationals (`ℚ`), `Array.prototype.sort` (stable) as insertion sort with the
matching tie policy, `number.toFixed(2)` / `Math.round` as round-half-up, and
`null`/`undefined` as `Option`.  Presentational string fields (title,
thumbnail, …) and the Korean recommendation message texts are abstracted:
recommendations are modelled by a tag carrying the numeric payload that the
source interpolates into the message.
-/

namespace YoutubeStrategy

/-- `VideoData` (src/types.ts): the numeric fields and the identifier used by
the scoring and classification logic.  Presentational string fields are
omitted. -/
structure VideoData where
  id : String
  viewCount : ℚ
  likeCount : ℚ
  commentCount : ℚ
  duration : ℚ
  popularityScore : ℚ
deriving DecidableEq

/-- `ShortsPerformance` enum (src/unnamed/part_015). -/
inductive ShortsPerformance where
  | VIRAL
  | EXCELLENT
  | GOOD
  | AVERAGE
  | POOR
deriving DecidableEq

/-- `ShortsData` (src/unnamed/part_015): a `VideoData` together with the
derived performance tier and engagement figures. -/
structure ShortsData extends VideoData where
  performance : ShortsPerformance
  engagementRate : ℚ
  retentionScore : Option ℚ
  hookEffectiveness : ℚ
deriving DecidableEq

/-- Round to 2 decimal places, as `parseFloat(score.toFixed(2))` does in
src/services/youtubeService.ts (`toFixed` rounds half towards `+∞`, which is
Mathlib's `round`). -/
def roundTo2 (x : ℚ) : ℚ := ((round (x * 100) : ℤ) : ℚ) / 100

/-- The popularity-score computation of `getVideoDetails`
(src/services/youtubeService.ts, lines 148-150):
`viewCount > 0 ? ((likeCount * 0.6 + commentCount * 0.4) / viewCount) * 1000 : 0`,
then rounded to 2 decimals. -/
def computePopularityScore (viewCount likeCount commentCount : ℚ) : ℚ :=
  if 0 < viewCount then
    roundTo2 (((likeCount * (6 / 10) + commentCount * (4 / 10)) / viewCount) * 1000)
  else 0

/-- Engagement rate of a video (src/services/youtubeService.ts, lines 486-488):
`viewCount > 0 ? (likeCount + commentCount) / viewCount : 0`. -/
def engagementRateOf (v : VideoData) : ℚ :=
  if 0 < v.viewCount then (v.likeCount + v.commentCount) / v.viewCount else 0

/-- Hook effectiveness (src/services/youtubeService.ts, lines 496-498):
`viewCount > 0 ? ((likeCount + commentCount * 2) / viewCount) * 100 : 0`. -/
def hookEffectivenessOf (v : VideoData) : ℚ :=
  if 0 < v.viewCount then ((v.likeCount + v.commentCount * 2) / v.viewCount) * 100 else 0

/-- Retention estimate (src/services/youtubeService.ts, lines 491-493):
`subscriberCount && subscriberCount > 0 ? Math.min(viewCount / subscriberCount, 1) : undefined`.
A missing or zero/negative subscriber count yields `undefined` (falsy `0`
included, matching the JavaScript truthiness test). -/
def retentionScoreOf (subscriberCount : Option ℚ) (v : VideoData) : Option ℚ :=
  match subscriberCount with
  | some s => if 0 < s then some (min (v.viewCount / s) 1) else none
  | none => none

/-- The per-video step of `analyzeShortsPerformance` that annotates a filtered
short with its engagement figures; `performance` is set to the temporary
`AVERAGE` placeholder exactly as in the source (line 505). -/
def toShortsData (subscriberCount : Option ℚ) (v : VideoData) : ShortsData :=
  { toVideoData := v
    performance := ShortsPerformance.AVERAGE
    engagementRate := engagementRateOf v
    retentionScore := retentionScoreOf subscriberCount v
    hookEffectiveness := hookEffectivenessOf v }

/-- Descending order on a rational key: `descBy key a b` holds when `a` may
come before `b`.  `sort((a, b) => b.key - a.key)` in JavaScript is a stable
descending sort, which insertion sort by this relation reproduces (ties keep
the original relative order). -/
def descBy {α : Type} (key : α → ℚ) (a b : α) : Prop := key b ≤ key a

/-- Ascending order on a rational key, for `sort((a, b) => a.key - b.key)`. -/
def ascBy {α : Type} (key : α → ℚ) (a b : α) : Prop := key a ≤ key b

instance {α : Type} (key : α → ℚ) : DecidableRel (descBy key) :=
  fun a b => inferInstanceAs (Decidable (key b ≤ key a))

instance {α : Type} (key : α → ℚ) : DecidableRel (ascBy key) :=
  fun a b => inferInstanceAs (Decidable (key a ≤ key b))

instance {α : Type} (key : α → ℚ) : IsTotal α (descBy key) :=
  ⟨fun a b => (le_total (key b) (key a)).imp id id⟩

instance {α : Type} (key : α → ℚ) : IsTrans α (descBy key) :=
  ⟨fun _ _ _ h1 h2 => le_trans h2 h1⟩

instance {α : Type} (key : α → ℚ) : IsTotal α (ascBy key) :=
  ⟨fun a b => (le_total (key a) (key b)).imp id id⟩

instance {α : Type} (key : α → ℚ) : IsTrans α (ascBy key) :=
  ⟨fun _ _ _ h1 h2 => le_trans h1 h2⟩

/-- Stable descending sort by a rational key, the embedding of
`[...xs].sort((a, b) => b.key - a.key)`. -/
def sortDescBy {α : Type} (key : α → ℚ) (l : List α) : List α :=
  l.insertionSort (descBy key)

/-- Stable ascending sort by a rational key, the embedding of
`[...xs].sort((a, b) => a.key - b.key)`. -/
def sortAscBy {α : Type} (key : α → ℚ) (l : List α) : List α :=
  l.insertionSort (ascBy key)

/-- The percentile-to-tier threshold chain of `analyzeShortsPerformance`
(src/services/youtubeService.ts, lines 519-530). -/
def tierOfPercentile (p : ℚ) : ShortsPerformance :=
  if p < 10 then ShortsPerformance.VIRAL
  else if p < 30 then ShortsPerformance.EXCELLENT
  else if p < 60 then ShortsPerformance.GOOD
  else if p < 80 then ShortsPerformance.AVERAGE
  else ShortsPerformance.POOR

/-- The classification pass of `analyzeShortsPerformance`
(src/services/youtubeService.ts, lines 510-537): sort a copy descending by
engagement rate, then map each item to its tier at percentile
`(rank / length) * 100`, where `rank` is `findIndex` by `id` in the sorted
copy. -/
def classifyShorts (sw : List ShortsData) : List ShortsData :=
  let sorted := sortDescBy (fun s => s.engagementRate) sw
  sw.map (fun short =>
    let rank : ℕ := sorted.findIdx (fun s => decide (s.id = short.id))
    let percentile : ℚ := ((rank : ℚ) / (sorted.length : ℚ)) * 100
    { short with performance := tierOfPercentile percentile })

/-- `analyzeShortsPerformance` (src/services/youtubeService.ts, lines
475-537): filter shorts (`0 < duration ≤ 60`), return `[]` for an empty
batch, otherwise annotate with engagement figures and classify. -/
def analyzeShortsPerformance (videos : List VideoData) (subscriberCount : Option ℚ) :
    List ShortsData :=
  let shorts := videos.filter (fun v => decide (0 < v.duration ∧ v.duration ≤ 60))
  if shorts.length = 0 then []
  else classifyShorts (shorts.map (toShortsData subscriberCount))

/-- Recommendation messages of `generateShortsSummary`
(src/services/youtubeService.ts, lines 567-625).  The Korean message strings
are abstracted to tags carrying the numeric value interpolated into them. -/
inductive Advice where
  | noShorts
  | lowViralRate
  | highViralRate (viralRate : ℚ)
  | lowEngagement
  | highEngagement (avgEngagement : ℚ)
  | highPoorRate (poorRate : ℚ)
  | fewShorts
  | topPattern (avgTopDuration : ℚ)
  | steady
deriving DecidableEq

/-- `ShortsSummary` (src/unnamed/part_015), with `recommendations`
abstracted to `Advice` tags. -/
structure ShortsSummary where
  totalShorts : ℕ
  avgViews : ℚ
  avgEngagement : ℚ
  viralCount : ℕ
  poorCount : ℕ
  bestPerformer : Option ShortsData
  worstPerformer : Option ShortsData
  recommendations : List Advice
deriving DecidableEq

/-- `generateShortsSummary` (src/services/youtubeService.ts, lines 540-640).
The empty batch returns the fixed zero summary with the single default
message.  Otherwise averages, tier counts, best/worst performer (first/last
of a stable sort descending by `viewCount`) and the rule-based advice list
are computed; `avgViews` goes through `Math.round` as in the source. -/
def generateShortsSummary (shorts : List ShortsData) : ShortsSummary :=
  if shorts.length = 0 then
    { totalShorts := 0
      avgViews := 0
      avgEngagement := 0
      viralCount := 0
      poorCount := 0
      bestPerformer := none
      worstPerformer := none
      recommendations := [Advice.noShorts] }
  else
    let totalViews := (shorts.map (fun s => s.viewCount)).sum
    let totalEngagement := (shorts.map (fun s => s.engagementRate)).sum
    let avgViews := totalViews / (shorts.length : ℚ)
    let avgEngagement := totalEngagement / (shorts.length : ℚ)
    let viralCount := shorts.countP (fun s => decide (s.performance = ShortsPerformance.VIRAL))
    let poorCount := shorts.countP (fun s => decide (s.performance = ShortsPerformance.POOR))
    let sortedByViews := sortDescBy (fun s => s.viewCount) shorts
    let bestPerformer := sortedByViews.head?
    let worstPerformer := sortedByViews.getLast?
    let viralRate := ((viralCount : ℚ) / (shorts.length : ℚ)) * 100
    let recs1 : List Advice :=
      if viralRate < 5 then [Advice.lowViralRate]
      else if 15 < viralRate then [Advice.highViralRate viralRate]
      else []
    let recs2 := recs1 ++
      (if avgEngagement < 1 / 100 then [Advice.lowEngagement]
       else if 5 / 100 < avgEngagement then [Advice.highEngagement avgEngagement]
       else [])
    let poorRate := ((poorCount : ℚ) / (shorts.length : ℚ)) * 100
    let recs3 := recs2 ++ (if 30 < poorRate then [Advice.highPoorRate poorRate] else [])
    let recs4 := recs3 ++ (if shorts.length < 10 then [Advice.fewShorts] else [])
    let topShorts := (shorts.filter (fun s =>
      decide (s.performance = ShortsPerformance.VIRAL ∨
        s.performance = ShortsPerformance.EXCELLENT))).take 5
    let recs5 := recs4 ++
      (if 0 < topShorts.length then
        [Advice.topPattern (((topShorts.map (fun s => s.duration)).sum) / (topShorts.length : ℚ))]
       else [])
    let recommendations := if recs5.length = 0 then [Advice.steady] else recs5
    { totalShorts := shorts.length
      avgViews := (round avgViews : ℤ)
      avgEngagement := avgEngagement
      viralCount := viralCount
      poorCount := poorCount
      bestPerformer := bestPerformer
      worstPerformer := worstPerformer
      recommendations := recommendations }

/-- `VideoTypeFilter` enum (src/types.ts / src/unnamed/part_015). -/
inductive VideoTypeFilter where
  | ALL
  | SHORTS
  | LONG
deriving DecidableEq

/-- `ChannelAnalysisView` enum: the `TOP` / `BOTTOM` display modes. -/
inductive ChannelAnalysisView where
  | TOP
  | BOTTOM
deriving DecidableEq

/-- `filterByVideoType` (src/unnamed/part_010, lines 255-269): the
parameterized duration filter.  `SHORTS` keeps `0 < duration ≤ max`, `LONG`
keeps `duration > max`, `ALL` is the identity.  The source's default for
`shortsMaxDuration` is the constant `SHORTS_MAX_SECONDS = 60`
(src/unnamed/part_012); here the threshold is always passed explicitly. -/
def filterByVideoType (videos : List VideoData) (type : VideoTypeFilter)
    (shortsMaxDuration : ℚ) : List VideoData :=
  match type with
  | VideoTypeFilter.SHORTS =>
      videos.filter (fun v => decide (0 < v.duration ∧ v.duration ≤ shortsMaxDuration))
  | VideoTypeFilter.LONG =>
      videos.filter (fun v => decide (shortsMaxDuration < v.duration))
  | VideoTypeFilter.ALL => videos

/-- The top/bottom selection of `handleSearch` (src/unnamed/part_003, lines
83-90 and src/App.tsx): sort ascending by `popularityScore`; `TOP` takes
`slice(-10).reverse()` (the last ten, highest first), `BOTTOM` takes
`slice(0, 10)` (the first ten).  The count `10` is a literal in the source. -/
def selectDisplayVideos (view : ChannelAnalysisView) (videoDetails : List VideoData) :
    List VideoData :=
  let sortedVideos := sortAscBy (fun v => v.popularityScore) videoDetails
  match view with
  | ChannelAnalysisView.TOP => (sortedVideos.drop (sortedVideos.length - 10)).reverse
  | ChannelAnalysisView.BOTTOM => sortedVideos.take 10

/-- Digit test used by the embedded regex `\d`. -/
def isDigitChar (c : Char) : Bool := decide ('0' ≤ c ∧ c ≤ '9')

/-- Numeric value of a digit character. -/
def digitVal (c : Char) : ℕ := c.toNat - 48

/-- Split off the maximal leading digit run, as the greedy `\d+` does. -/
def takeDigits : List Char → List Char × List Char
  | [] => ([], [])
  | c :: cs =>
    if isDigitChar c then
      let p := takeDigits cs
      (c :: p.1, p.2)
    else ([], c :: cs)

/-- Decimal value of a digit run, most significant first. -/
def parseNum (ds : List Char) : ℕ := ds.foldl (fun a c => 10 * a + digitVal c) 0

/-- One optional regex group `(\d+X)?`: if a nonempty digit run immediately
followed by the marker letter is present, consume it and return its value;
otherwise match the empty string and leave the input unchanged. -/
def parseGroup (letter : Char) (cs : List Char) : ℕ × List Char :=
  if (takeDigits cs).1 ≠ [] ∧ (takeDigits cs).2.head? = some letter then
    (parseNum (takeDigits cs).1, (takeDigits cs).2.tail)
  else (0, cs)

/-- The component extraction after the literal `PT`: the optional
hours/minutes/seconds groups of `PT(\d+H)?(\d+M)?(\d+S)?`, combined as
`hours * 3600 + minutes * 60 + seconds`. -/
def parseAfterPT (cs : List Char) : ℕ :=
  let h := parseGroup 'H' cs
  let m := parseGroup 'M' h.2
  let s := parseGroup 'S' m.2
  h.1 * 3600 + m.1 * 60 + s.1

/-- Scan for the first occurrence of the literal `PT` (the way
`String.prototype.match` anchors the unanchored pattern at the leftmost
matching position); returns the remainder after it, or `none`. -/
def findPT : List Char → Option (List Char)
  | [] => none
  | [_] => none
  | a :: b :: rest =>
    if a = 'P' ∧ b = 'T' then some rest else findPT (b :: rest)

/-- `parseDuration` (src/services/youtubeService.ts, lines 5-12 and
src/unnamed/part_010, lines 118-133): match
`PT(\d+H)?(\d+M)?(\d+S)?`; no match (no `PT` anywhere) yields `0`, every
missing group contributes `0`. -/
def parseDuration (s : String) : ℕ :=
  match findPT s.data with
  | none => 0
  | some rest => parseAfterPT rest

/-- Digit character of a value below 10. -/
def digitChar (d : ℕ) : Char :=
  match d with
  | 0 => '0'
  | 1 => '1'
  | 2 => '2'
  | 3 => '3'
  | 4 => '4'
  | 5 => '5'
  | 6 => '6'
  | 7 => '7'
  | 8 => '8'
  | _ => '9'

/-- Decimal digit string of a natural number, most significant first. -/
def natChars (n : ℕ) : List Char :=
  if _h : n < 10 then [digitChar n]
  else natChars (n / 10) ++ [digitChar (n % 10)]
termination_by n
decreasing_by exact Nat.div_lt_self (by omega) (by omega)

/-- One optional component of the compact duration notation. -/
def durComponent (o : Option ℕ) (marker : Char) : List Char :=
  match o with
  | none => []
  | some n => natChars n ++ [marker]

/-- Modelled from the spec: the canonical compact encoding of a duration,
`PT` followed by the optional hours/minutes/seconds components, "any subset
may be present or absent".  Used only to state the round-trip property of
`parseDuration`. -/
def encodeDuration (h m s : Option ℕ) : String :=
  String.mk ('P' :: 'T' ::
    (durComponent h 'H' ++ durComponent m 'M' ++ durComponent s 'S'))

/-- Error kind of the spec's Scoring Engine. -/
inductive ScoringError where
  | invalidInput
deriving DecidableEq

/-- Modelled from the spec: `computePopularityScore` as §4.1 and §7 describe
it, failing with `InvalidInput` when a counter argument is negative
(non-finiteness is not representable over `ℚ`), and otherwise returning the
value the code computes.  Present only to compare the spec's demanded error
behaviour with the source, which performs no such validation. -/
def computePopularityScoreChecked (viewCount likeCount commentCount : ℚ) :
    Except ScoringError ℚ :=
  if viewCount < 0 ∨ likeCount < 0 ∨ commentCount < 0 then
    Except.error ScoringError.invalidInput
  else Except.ok (computePopularityScore viewCount likeCount commentCount)

/-- Modelled from the spec: `selectTopOrBottom(items, mode, count)` of §4.2,
with an explicit `count` parameter ("takes the last `count` elements and
reverses them" / "takes the first `count` elements").  The source
(src/unnamed/part_003) hard-codes the count to the literal `10`; this
definition exists to state how the source relates to the parameterized
operation the spec describes. -/
def selectTopOrBottomSpec (mode : ChannelAnalysisView) (count : ℕ)
    (items : List VideoData) : List VideoData :=
  let sorted := sortAscBy (fun v => v.popularityScore) items
  match mode with
  | ChannelAnalysisView.TOP => (sorted.drop (sorted.length - count)).reverse
  | ChannelAnalysisView.BOTTOM => sorted.take count

/-- First element attaining the maximal key, i.e. the max with ties broken
towards the earlier occurrence. -/
def firstMaxBy {α : Type} (key : α → ℚ) : List α → Option α
  | [] => none
  | x :: xs =>
    match firstMaxBy key xs with
    | none => some x
    | some m => some (if key m ≤ key x then x else m)

/-- Last element attaining the minimal key, i.e. the min with ties broken
towards the later occurrence. -/
def lastMinBy {α : Type} (key : α → ℚ) : List α → Option α
  | [] => none
  | x :: xs =>
    match lastMinBy key xs with
    | none => some x
    | some m => some (if key m ≤ key x then m else x)

/-- The scenario item `A(v=1000, l=100, c=50)` of the end-to-end test, scored
as `getVideoDetails` scores fetched items; duration 30 makes it a short. -/
def va : VideoData :=
  ⟨r"A", 1000, 100, 50, 30, computePopularityScore 1000 100 50⟩

/-- The scenario item `B(v=1000, l=10, c=5)`. -/
def vb : VideoData :=
  ⟨r"B", 1000, 10, 5, 30, computePopularityScore 1000 10 5⟩

/-- The scenario item `C(v=1000, l=500, c=200)`. -/
def vc : VideoData :=
  ⟨r"C", 1000, 500, 200, 30, computePopularityScore 1000 500 200⟩

/-- A video carrying only an identifier and a popularity score, for the
top/bottom selection scenarios. -/
def scoreVideo (i : String) (score : ℚ) : VideoData := ⟨i, 0, 0, 0, 0, score⟩

/-- The score batch `[10, 50, 5, 80, 20]` of the selection scenario. -/
def scoreItems5 : List VideoData :=
  [scoreVideo (r"a") 10, scoreVideo (r"b") 50, scoreVideo (r"c") 5,
   scoreVideo (r"d") 80, scoreVideo (r"e") 20]

/-- A classified short carrying only an identifier and a view count, for the
best/worst-performer scenarios. -/
def viewShort (i : String) (views : ℚ) : ShortsData :=
  ⟨⟨i, views, 0, 0, 30, 0⟩, ShortsPerformance.AVERAGE, 0, none, 0⟩

/-- A batch with a tie at the maximal view count: `y` and `z` share the
maximum `5`, `x` holds the unique minimum `1`. -/
def tiedShorts : List ShortsData :=
  [viewShort (r"x") 1, viewShort (r"y") 5, viewShort (r"z") 5]

/-- A 10-item batch with pairwise distinct ids and pairwise distinct
engagement rates, for the percentile-tier scenarios. -/
def batch10 : List ShortsData :=
  (List.range 10).map (fun i =>
    ⟨⟨toString i, 100, (i : ℚ), 0, 30, 0⟩, ShortsPerformance.AVERAGE,
      (i : ℚ) / 100, none, 0⟩)

/-- A video whose only relevant field is its duration, for the filter
scenarios. -/
def durVideo (i : String) (d : ℚ) : VideoData := ⟨i, 0, 0, 0, d, 0⟩

/-- C1: `computePopularityScore` returns `0` whenever `viewCount = 0`, for
any like and comment counts, and on every item (natural-number counters) with
`viewCount > 0` it returns `((likeCount * 0.6 + commentCount * 0.4) /
viewCount) * 1000` rounded to 2 decimal places. -/
theorem computePopularityScore_formula :
    (∀ likeCount commentCount : ℚ, computePopularityScore 0 likeCount commentCount = 0) ∧
    (∀ v l c : ℕ, 0 < v →
      computePopularityScore v l c =
        roundTo2 ((((l : ℚ) * (6 / 10) + (c : ℚ) * (4 / 10)) / (v : ℚ)) * 1000)) := by
  constructor
  · intro likeCount commentCount
    rw [computePopularityScore, if_neg (lt_irrefl 0)]
  · intro v l c hv
    have hv' : (0 : ℚ) < (v : ℚ) := by exact_mod_cast hv
    rw [computePopularityScore, if_pos hv']

/-- Witness for C1 at the concrete input `(v, l, c) = (1000, 100, 50)`. -/
theorem computePopularityScore_formula_witness :
    computePopularityScore ((1000 : ℕ) : ℚ) ((100 : ℕ) : ℚ) ((50 : ℕ) : ℚ) =
      roundTo2 (((((100 : ℕ) : ℚ) * (6 / 10) + ((50 : ℕ) : ℚ) * (4 / 10)) /
        ((1000 : ℕ) : ℚ)) * 1000) :=
  computePopularityScore_formula.2 1000 100 50 (by norm_num)

/-- C3 counterexample: on `A(v=1000, l=100, c=50)` the code computes the
score `80`, not the claimed `86.0`, and on `B(v=1000, l=10, c=5)` it computes
`8`, not the claimed `8.6`. -/
theorem endToEndScores_counterexample :
    computePopularityScore 1000 100 50 = 80 ∧ (80 : ℚ) ≠ 86 ∧
    computePopularityScore 1000 10 5 = 8 ∧ (8 : ℚ) ≠ 43 / 5 := by
  norm_num [computePopularityScore, roundTo2, round_eq]

/-- C3 amended: the scores of the scenario batch are `A = 80.0`, `B = 8.0`,
`C = 380.0`, and classifying the batch (the code ranks by engagement rate)
assigns `C` the tier `VIRAL`, `A` the tier `GOOD` and `B` the tier
`AVERAGE` — the lowest tier of the three. -/
theorem endToEnd_amended :
    computePopularityScore 1000 100 50 = 80 ∧
    computePopularityScore 1000 10 5 = 8 ∧
    computePopularityScore 1000 500 200 = 380 ∧
    (analyzeShortsPerformance [va, vb, vc] none).map (fun s => (s.id, s.performance)) =
      [((r"A" : String), ShortsPerformance.GOOD), ((r"B" : String), ShortsPerformance.AVERAGE),
       ((r"C" : String), ShortsPerformance.VIRAL)] := by
  refine ⟨?_, ?_, ?_, ?_⟩
  · norm_num [computePopularityScore, roundTo2, round_eq]
  · norm_num [computePopularityScore, roundTo2, round_eq]
  · norm_num [computePopularityScore, roundTo2, round_eq]
  · norm_num [analyzeShortsPerformance, classifyShorts, sortDescBy, List.insertionSort,
      List.orderedInsert, descBy, toShortsData, engagementRateOf, retentionScoreOf,
      hookEffectivenessOf, va, vb, vc, tierOfPercentile, List.findIdx, List.findIdx.go]
    simp only [String.reduceEq, Bool.cond_false, Bool.cond_true]
    norm_num

/-- C4 counterexample: at the negative input `likeCount = -10` the code does
not fail — it silently returns the number `-6` — whereas the spec-modelled
checked variant raises `InvalidInput` there. -/
theorem invalidInput_counterexample :
    computePopularityScore 1000 (-10) 0 = -6 ∧
    computePopularityScoreChecked 1000 (-10) 0 = Except.error ScoringError.invalidInput := by
  constructor
  · norm_num [computePopularityScore, roundTo2, round_eq]
  · rw [computePopularityScoreChecked,
      if_pos (Or.inr (Or.inl (by norm_num : (-10 : ℚ) < 0)))]

/-- C4 amended: the code performs no input validation and never fails: for
every rational input (negative included) it returns a number — the rounded
weighted formula when `0 < viewCount`, and `0` otherwise. -/
theorem computePopularityScore_total :
    ∀ v l c : ℚ,
      (0 < v → computePopularityScore v l c =
        roundTo2 (((l * (6 / 10) + c * (4 / 10)) / v) * 1000)) ∧
      (v ≤ 0 → computePopularityScore v l c = 0) := by
  intro v l c
  refine ⟨fun h => ?_, fun h => ?_⟩
  · rw [computePopularityScore, if_pos h]
  · rw [computePopularityScore, if_neg (not_lt.mpr h)]

/-- Witness for C4's amended theorem: the formula branch at the negative
input `(1000, -10, 0)` and the zero branch at `viewCount = 0`. -/
theorem computePopularityScore_total_witness :
    computePopularityScore 1000 (-10) 0 =
      roundTo2 ((((-10) * (6 / 10) + 0 * (4 / 10)) / 1000) * 1000) ∧
    computePopularityScore 0 5 7 = 0 :=
  ⟨(computePopularityScore_total 1000 (-10) 0).1 (by norm_num),
   (computePopularityScore_total 0 5 7).2 le_rfl⟩

/-- C9: summarizing the empty batch does not raise: every count is `0`, both
averages are `0`, best and worst performer are `null`, and the default
recommendation list is non-empty. -/
theorem generateShortsSummary_empty :
    (generateShortsSummary []).totalShorts = 0 ∧
    (generateShortsSummary []).avgViews = 0 ∧
    (generateShortsSummary []).avgEngagement = 0 ∧
    (generateShortsSummary []).viralCount = 0 ∧
    (generateShortsSummary []).poorCount = 0 ∧
    (generateShortsSummary []).bestPerformer = none ∧
    (generateShortsSummary []).worstPerformer = none ∧
    (generateShortsSummary []).recommendations ≠ [] := by decide

/-- C5: `filterByVideoType` keeps exactly `0 < duration ≤ threshold` in
`SHORTS` mode, exactly `threshold < duration` in `LONG` mode, and is the
identity in `ALL` mode; an item at the threshold is kept by `SHORTS` and
dropped by `LONG`, and a zero-duration item appears in neither. -/
theorem filterByVideoType_spec :
    ∀ (items : List VideoData) (threshold : ℚ),
      (∀ v : VideoData, v ∈ filterByVideoType items VideoTypeFilter.SHORTS threshold ↔
        v ∈ items ∧ 0 < v.duration ∧ v.duration ≤ threshold) ∧
      (∀ v : VideoData, v ∈ filterByVideoType items VideoTypeFilter.LONG threshold ↔
        v ∈ items ∧ threshold < v.duration) ∧
      filterByVideoType items VideoTypeFilter.ALL threshold = items ∧
      (∀ v ∈ items, v.duration = threshold → 0 < threshold →
        v ∈ filterByVideoType items VideoTypeFilter.SHORTS threshold ∧
        v ∉ filterByVideoType items VideoTypeFilter.LONG threshold) ∧
      (∀ v ∈ items, v.duration = 0 → 0 ≤ threshold →
        v ∉ filterByVideoType items VideoTypeFilter.SHORTS threshold ∧
        v ∉ filterByVideoType items VideoTypeFilter.LONG threshold) := by
  intro items threshold
  have hshort : ∀ v : VideoData, v ∈ filterByVideoType items VideoTypeFilter.SHORTS threshold ↔
      v ∈ items ∧ 0 < v.duration ∧ v.duration ≤ threshold := by
    intro v
    simp [filterByVideoType, List.mem_filter]
  have hlong : ∀ v : VideoData, v ∈ filterByVideoType items VideoTypeFilter.LONG threshold ↔
      v ∈ items ∧ threshold < v.duration := by
    intro v
    simp [filterByVideoType, List.mem_filter]
  refine ⟨hshort, hlong, rfl, ?_, ?_⟩
  · intro v hv hd ht
    refine ⟨(hshort v).2 ⟨hv, by rw [hd]; exact ht, le_of_eq hd⟩, fun hmem => ?_⟩
    exact absurd ((hlong v).1 hmem).2 (by rw [hd]; exact lt_irrefl threshold)
  · intro v hv hd ht
    refine ⟨fun hmem => ?_, fun hmem => ?_⟩
    · exact absurd ((hshort v).1 hmem).2.1 (by rw [hd]; exact lt_irrefl 0)
    · exact absurd ((hlong v).1 hmem).2 (by rw [hd]; exact not_lt.mpr ht)

/-- Witness for C5: a video of duration 60 at threshold 60 is kept by
`SHORTS` and dropped by `LONG`. -/
theorem filterByVideoType_spec_witness :
    durVideo (r"t") 60 ∈ filterByVideoType [durVideo (r"t") 60] VideoTypeFilter.SHORTS 60 ∧
    durVideo (r"t") 60 ∉ filterByVideoType [durVideo (r"t") 60] VideoTypeFilter.LONG 60 :=
  (filterByVideoType_spec [durVideo (r"t") 60] 60).2.2.2.1 (durVideo (r"t") 60)
    (by simp) rfl (by norm_num)

/-- C6 counterexample: the code's top/bottom selection has its count fixed at
the literal 10; on the score batch `[10, 50, 5, 80, 20]` the `TOP` output is
all five scores descending, not the claimed 3-element `[80, 50, 20]`, the
`BOTTOM` output is all five ascending, not the claimed `[5, 10]`, and the
`TOP` output differs from the spec operation instantiated at count 3. -/
theorem selectTopOrBottom_counterexample :
    (selectDisplayVideos ChannelAnalysisView.TOP scoreItems5).map (fun v => v.popularityScore) ≠
      [80, 50, 20] ∧
    (selectDisplayVideos ChannelAnalysisView.BOTTOM scoreItems5).map (fun v => v.popularityScore) ≠
      [5, 10] ∧
    selectDisplayVideos ChannelAnalysisView.TOP scoreItems5 ≠
      selectTopOrBottomSpec ChannelAnalysisView.TOP 3 scoreItems5 := by
  refine ⟨?_, ?_, ?_⟩ <;>
    norm_num [selectDisplayVideos, selectTopOrBottomSpec, sortAscBy, List.insertionSort,
      List.orderedInsert, ascBy, scoreItems5, scoreVideo] <;>
    simp

/-- C6 amended: the source hard-codes the count to 10.  With that count it
implements the spec's operation: sort ascending by `popularityScore`, `TOP`
is the last ten reversed, `BOTTOM` the first ten; a batch of at most ten
items is returned whole (sorted, reversed for `TOP`) without error; on the
score batch `[10, 50, 5, 80, 20]` `TOP` yields `[80, 50, 20, 10, 5]` and
`BOTTOM` yields `[5, 10, 20, 50, 80]`. -/
theorem selectDisplayVideos_spec :
    ∀ items : List VideoData,
      selectDisplayVideos ChannelAnalysisView.TOP items =
        selectTopOrBottomSpec ChannelAnalysisView.TOP 10 items ∧
      selectDisplayVideos ChannelAnalysisView.BOTTOM items =
        selectTopOrBottomSpec ChannelAnalysisView.BOTTOM 10 items ∧
      (items.length ≤ 10 →
        selectDisplayVideos ChannelAnalysisView.BOTTOM items =
          sortAscBy (fun v => v.popularityScore) items ∧
        selectDisplayVideos ChannelAnalysisView.TOP items =
          (sortAscBy (fun v => v.popularityScore) items).reverse) ∧
      (selectDisplayVideos ChannelAnalysisView.TOP scoreItems5).map (fun v => v.popularityScore) =
        [80, 50, 20, 10, 5] ∧
      (selectDisplayVideos ChannelAnalysisView.BOTTOM scoreItems5).map
          (fun v => v.popularityScore) =
        [5, 10, 20, 50, 80] := by
  intro items
  have hlen : (sortAscBy (fun v => v.popularityScore) items).length = items.length := by
    rw [sortAscBy, List.length_insertionSort]
  refine ⟨rfl, rfl, fun hle => ⟨?_, ?_⟩, ?_, ?_⟩
  · rw [selectDisplayVideos]
    exact List.take_of_length_le (hlen ▸ hle)
  · rw [selectDisplayVideos]
    rw [Nat.sub_eq_zero_of_le (hlen ▸ hle), List.drop_zero]
  · norm_num [selectDisplayVideos, sortAscBy, List.insertionSort, List.orderedInsert, ascBy,
      scoreItems5, scoreVideo]
  · norm_num [selectDisplayVideos, sortAscBy, List.insertionSort, List.orderedInsert, ascBy,
      scoreItems5, scoreVideo]

/-- Witness for C6's amended theorem: the five-item batch is within the count
of 10, so `BOTTOM` returns the whole sorted batch. -/
theorem selectDisplayVideos_spec_witness :
    selectDisplayVideos ChannelAnalysisView.BOTTOM scoreItems5 =
      sortAscBy (fun v => v.popularityScore) scoreItems5 :=
  ((selectDisplayVideos_spec scoreItems5).2.2.1 (by norm_num [scoreItems5])).1

/-- Digit characters are digits with the right value. -/
theorem digitChar_spec : ∀ d : ℕ, d < 10 →
    isDigitChar (digitChar d) = true ∧ digitVal (digitChar d) = d := by decide

/-- Every character of a decimal rendering is a digit. -/
theorem natChars_digits : ∀ n : ℕ, ∀ c ∈ natChars n, isDigitChar c = true := by
  intro n
  induction n using Nat.strong_induction_on with
  | _ n ih =>
    intro c hc
    rw [natChars] at hc
    split at hc
    · next hlt =>
      simp only [List.mem_singleton] at hc
      subst hc
      exact (digitChar_spec n hlt).1
    · next hge =>
      rw [List.mem_append] at hc
      rcases hc with hc | hc
      · exact ih (n / 10) (Nat.div_lt_self (by omega) (by omega)) c hc
      · simp only [List.mem_singleton] at hc
        subst hc
        exact (digitChar_spec (n % 10) (Nat.mod_lt _ (by omega))).1

/-- A decimal rendering is never empty. -/
theorem natChars_ne_nil (n : ℕ) : natChars n ≠ [] := by
  rw [natChars]
  split
  · simp
  · simp

/-- Parsing a decimal rendering recovers the number. -/
theorem parseNum_natChars : ∀ n : ℕ, parseNum (natChars n) = n := by
  intro n
  induction n using Nat.strong_induction_on with
  | _ n ih =>
    rw [natChars]
    split
    · next hlt =>
      simp only [parseNum, List.foldl_cons, List.foldl_nil]
      simpa using (digitChar_spec n hlt).2
    · next hge =>
      rw [parseNum, List.foldl_append]
      rw [← parseNum]
      simp only [List.foldl_cons, List.foldl_nil]
      rw [ih (n / 10) (Nat.div_lt_self (by omega) (by omega))]
      rw [(digitChar_spec (n % 10) (Nat.mod_lt _ (by omega))).2]
      omega

/-- The greedy digit scan splits a digit run from a non-digit continuation. -/
theorem takeDigits_append (ds r : List Char)
    (hds : ∀ c ∈ ds, isDigitChar c = true)
    (hr : ∀ c, r.head? = some c → isDigitChar c = false) :
    takeDigits (ds ++ r) = (ds, r) := by
  induction ds with
  | nil =>
    simp only [List.nil_append]
    cases r with
    | nil => rfl
    | cons c cs =>
      rw [takeDigits, hr c rfl]
      simp
  | cons d ds ih =>
    rw [List.cons_append, takeDigits, hds d (List.mem_cons_self d ds)]
    simp only [if_true]
    rw [ih (fun c hc => hds c (List.mem_cons_of_mem d hc))]

/-- A present group `\d+X` is consumed and its value returned. -/
theorem parseGroup_present (letter : Char) (hletter : isDigitChar letter = false)
    (n : ℕ) (rest : List Char) :
    parseGroup letter (natChars n ++ letter :: rest) = (n, rest) := by
  have ht : takeDigits (natChars n ++ letter :: rest) = (natChars n, letter :: rest) :=
    takeDigits_append _ _ (natChars_digits n)
      (fun c hc => by
        simp only [List.head?_cons, Option.some.injEq] at hc
        exact hc ▸ hletter)
  rw [parseGroup, ht, if_pos ⟨natChars_ne_nil n, rfl⟩]
  simp [parseNum_natChars]

/-- A group whose marker letter does not follow matches the empty string. -/
theorem parseGroup_other (letter other : Char) (hne : other ≠ letter)
    (hother : isDigitChar other = false) (n : ℕ) (rest : List Char) :
    parseGroup letter (natChars n ++ other :: rest) = (0, natChars n ++ other :: rest) := by
  have ht : takeDigits (natChars n ++ other :: rest) = (natChars n, other :: rest) :=
    takeDigits_append _ _ (natChars_digits n)
      (fun c hc => by
        simp only [List.head?_cons, Option.some.injEq] at hc
        exact hc ▸ hother)
  rw [parseGroup, ht, if_neg]
  intro hcon
  exact hne (Option.some.inj hcon.2)

/-- A group at the end of input matches the empty string. -/
theorem parseGroup_nil (letter : Char) : parseGroup letter [] = (0, []) := by
  simp [parseGroup, takeDigits]

/-- Parsing starts right after the leading literal `PT`. -/
theorem parseDuration_PT (body : List Char) :
    parseDuration (String.mk ('P' :: 'T' :: body)) = parseAfterPT body := by
  have hf : findPT ('P' :: 'T' :: body) = some body := by simp [findPT]
  show (match findPT ('P' :: 'T' :: body) with
    | none => 0
    | some rest => parseAfterPT rest) = parseAfterPT body
  rw [hf]

/-- Round-trip: parsing any canonical compact encoding recovers
`hours * 3600 + minutes * 60 + seconds`, with absent components contributing 0. -/
theorem parseDuration_encode (ho mo so : Option ℕ) :
    parseDuration (encodeDuration ho mo so) =
      ho.getD 0 * 3600 + mo.getD 0 * 60 + so.getD 0 := by
  have hH : isDigitChar 'H' = false := by decide
  have hM : isDigitChar 'M' = false := by decide
  have hS : isDigitChar 'S' = false := by decide
  have hMH : 'M' ≠ 'H' := by decide
  have hSH : 'S' ≠ 'H' := by decide
  have hSM : 'S' ≠ 'M' := by decide
  rw [encodeDuration, parseDuration_PT]
  rcases ho with _ | a <;> rcases mo with _ | b <;> rcases so with _ | c <;>
    simp only [durComponent, List.nil_append, List.append_nil, List.append_assoc,
      List.singleton_append, List.cons_append, Option.getD_none, Option.getD_some, parseAfterPT,
      parseGroup_nil, parseGroup_present ('H') hH, parseGroup_present ('M') hM,
      parseGroup_present ('S') hS,
      parseGroup_other ('H') ('M') hMH hM,
      parseGroup_other ('H') ('S') hSH hS,
      parseGroup_other ('M') ('S') hSM hS]

/-- In a list whose keys are pairwise distinct, `findIndex` by the key of the
element at position `j` returns `j` — the rank lookup by `id` in
`analyzeShortsPerformance` is exactly the element's sorted position. -/
theorem findIdx_key_get {α : Type} (key : α → String) :
    ∀ (s : List α) (j : ℕ) (hj : j < s.length), (s.map key).Nodup →
      s.findIdx (fun t => decide (key t = key (s.get ⟨j, hj⟩))) = j := by
  intro s
  induction s with
  | nil => intro j hj _; exact absurd hj (by simp)
  | cons a t ih =>
    intro j hj hnd
    rw [List.map_cons, List.nodup_cons] at hnd
    cases j with
    | zero => simp [List.findIdx_cons]
    | succ j =>
      have hj' : j < t.length := Nat.lt_of_succ_lt_succ hj
      have hget : (a :: t).get ⟨j + 1, hj⟩ = t.get ⟨j, hj'⟩ := rfl
      rw [hget, List.findIdx_cons]
      have hmem : key (t.get ⟨j, hj'⟩) ∈ t.map key :=
        List.mem_map_of_mem key (List.get_mem t j hj')
      have hne : ¬ key a = key (t.get ⟨j, hj'⟩) := fun heq => hnd.1 (heq ▸ hmem)
      rw [decide_eq_false hne]
      simp only [Bool.cond_false]
      rw [ih j hj' hnd.2]

/-- At a percentile of 10 or above the assigned tier is never `VIRAL`. -/
theorem tierOfPercentile_ne_viral (p : ℚ) (hp : 10 ≤ p) :
    tierOfPercentile p ≠ ShortsPerformance.VIRAL := by
  rw [tierOfPercentile, if_neg (not_lt.mpr hp)]
  split_ifs <;> decide

/-- A predicate holding exactly at position 0 is satisfied exactly once. -/
theorem countP_eq_one_of_first {α : Type} (q : α → Bool) :
    ∀ (s : List α), s ≠ [] →
      (∀ j (hj : j < s.length), (q (s.get ⟨j, hj⟩) = true) ↔ j = 0) →
      s.countP q = 1 := by
  intro s hne hq
  cases s with
  | nil => exact absurd rfl hne
  | cons a t =>
    rw [List.countP_cons]
    have ha : q a = true := (hq 0 (by simp)).mpr rfl
    have ht : t.countP q = 0 := by
      rw [List.countP_eq_zero]
      intro x hx hqx
      obtain ⟨⟨i, hi⟩, hgi⟩ := List.mem_iff_get.mp hx
      have h1 : (a :: t).get ⟨i + 1, Nat.succ_lt_succ hi⟩ = t.get ⟨i, hi⟩ := rfl
      have := (hq (i + 1) (Nat.succ_lt_succ hi)).mp (by rw [h1, hgi]; exact hqx)
      exact Nat.succ_ne_zero i this
    rw [ht, ha]
    simp

/-- C2: in every batch with pairwise distinct ids, the item at rank `j` of the
stable descending sort receives the tier at percentile `j / batchSize`
(thresholds 10/30/60/80); a singleton batch is always classified `VIRAL`; and
a batch of 10 items (with strictly distinct ranking-key values) has exactly
one `VIRAL` item. -/
theorem classifyShorts_spec (l : List ShortsData) (_hne : l ≠ [])
    (hids : (l.map (fun s => s.id)).Nodup) :
    (∀ (j : ℕ) (hj : j < (sortDescBy (fun s => s.engagementRate) l).length),
      { (sortDescBy (fun s => s.engagementRate) l).get ⟨j, hj⟩ with
          performance := tierOfPercentile (((j : ℚ) / (l.length : ℚ)) * 100) } ∈
        classifyShorts l) ∧
    (∀ s : ShortsData, classifyShorts [s] =
      [{ s with performance := ShortsPerformance.VIRAL }]) ∧
    (l.length = 10 → (l.map (fun s => s.engagementRate)).Nodup →
      (classifyShorts l).countP
        (fun s => decide (s.performance = ShortsPerformance.VIRAL)) = 1) := by
  have hperm : (sortDescBy (fun s : ShortsData => s.engagementRate) l).Perm l :=
    List.perm_insertionSort _ l
  have hlen : (sortDescBy (fun s : ShortsData => s.engagementRate) l).length = l.length :=
    List.length_insertionSort _ l
  have hndsrt : ((sortDescBy (fun s : ShortsData => s.engagementRate) l).map
      (fun s => s.id)).Nodup :=
    ((hperm.map (fun s => s.id)).nodup_iff).mpr hids
  refine ⟨?_, ?_, ?_⟩
  · intro j hj
    have hx : (sortDescBy (fun s : ShortsData => s.engagementRate) l).get ⟨j, hj⟩ ∈ l :=
      hperm.subset (List.get_mem _ j hj)
    have hlenQ : (((sortDescBy (fun s : ShortsData => s.engagementRate) l).length : ℕ) : ℚ) =
        ((l.length : ℕ) : ℚ) := by rw [hlen]
    simp only [classifyShorts]
    refine List.mem_map.mpr ⟨(sortDescBy (fun s : ShortsData => s.engagementRate) l).get ⟨j, hj⟩,
      hx, ?_⟩
    rw [findIdx_key_get (fun s => s.id) (sortDescBy (fun s : ShortsData => s.engagementRate) l)
      j hj hndsrt, hlenQ]
  · intro s
    simp only [classifyShorts, sortDescBy, List.insertionSort, List.orderedInsert]
    simp [List.findIdx_cons, tierOfPercentile]
  · intro hl10 _hdistinct
    simp only [classifyShorts]
    rw [List.countP_map]
    rw [← hperm.countP_eq]
    apply countP_eq_one_of_first
    · intro hnil
      rw [hnil] at hlen
      rw [hl10] at hlen
      simp at hlen
    · intro j hj
      simp only [Function.comp]
      have hidx := findIdx_key_get (fun s => s.id)
        (sortDescBy (fun s : ShortsData => s.engagementRate) l) j hj hndsrt
      have hlenQ : (((sortDescBy (fun s : ShortsData => s.engagementRate) l).length : ℕ) : ℚ) =
          (10 : ℚ) := by rw [hlen, hl10]; norm_num
      simp only [hidx, hlenQ]
      constructor
      · intro htrue
        by_contra hj0
        have hj1 : 1 ≤ (j : ℚ) := by
          have h1 : 1 ≤ j := Nat.one_le_iff_ne_zero.mpr hj0
          exact_mod_cast h1
        have hge : (10 : ℚ) ≤ ((j : ℚ) / (10 : ℚ)) * 100 := by
          have heq : ((j : ℚ) / (10 : ℚ)) * 100 = 10 * (j : ℚ) := by ring
          rw [heq]
          linarith
        have hnv := tierOfPercentile_ne_viral _ hge
        simp only [decide_eq_true_eq] at htrue
        exact hnv htrue
      · intro hj0
        subst hj0
        norm_num [tierOfPercentile]

/-- C10: whenever `analyzeShortsPerformance` produces a non-empty output, at
least one output item carries the tier `VIRAL`: the top-ranked item has rank
0, hence percentile 0, below the `VIRAL` threshold for every batch size. -/
theorem analyzeShortsPerformance_viral (videos : List VideoData) (subscriberCount : Option ℚ)
    (hne : analyzeShortsPerformance videos subscriberCount ≠ []) :
    ∃ y ∈ analyzeShortsPerformance videos subscriberCount,
      y.performance = ShortsPerformance.VIRAL := by
  by_cases h0 : (videos.filter (fun v => decide (0 < v.duration ∧ v.duration ≤ 60))).length = 0
  · exfalso
    apply hne
    simp only [analyzeShortsPerformance]
    rw [if_pos h0]
  · have hana : analyzeShortsPerformance videos subscriberCount =
        classifyShorts ((videos.filter (fun v => decide (0 < v.duration ∧ v.duration ≤ 60))).map
          (toShortsData subscriberCount)) := by
      simp only [analyzeShortsPerformance]
      rw [if_neg h0]
    have hswne : (videos.filter (fun v => decide (0 < v.duration ∧ v.duration ≤ 60))).map
        (toShortsData subscriberCount) ≠ [] := by
      intro hnil
      rw [List.map_eq_nil_iff] at hnil
      exact h0 (by rw [hnil]; rfl)
    have hlen : (sortDescBy (fun s : ShortsData => s.engagementRate)
        ((videos.filter (fun v => decide (0 < v.duration ∧ v.duration ≤ 60))).map
          (toShortsData subscriberCount))).length =
        ((videos.filter (fun v => decide (0 < v.duration ∧ v.duration ≤ 60))).map
          (toShortsData subscriberCount)).length := List.length_insertionSort _ _
    have hsrtne : sortDescBy (fun s : ShortsData => s.engagementRate)
        ((videos.filter (fun v => decide (0 < v.duration ∧ v.duration ≤ 60))).map
          (toShortsData subscriberCount)) ≠ [] := by
      intro hnil
      rw [hnil] at hlen
      exact hswne (List.length_eq_zero.mp hlen.symm)
    obtain ⟨a, t, hat⟩ := List.exists_cons_of_ne_nil hsrtne
    have hperm : (sortDescBy (fun s : ShortsData => s.engagementRate)
        ((videos.filter (fun v => decide (0 < v.duration ∧ v.duration ≤ 60))).map
          (toShortsData subscriberCount))).Perm
        ((videos.filter (fun v => decide (0 < v.duration ∧ v.duration ≤ 60))).map
          (toShortsData subscriberCount)) := List.perm_insertionSort _ _
    have hamem : a ∈ (videos.filter (fun v => decide (0 < v.duration ∧ v.duration ≤ 60))).map
        (toShortsData subscriberCount) :=
      hperm.subset (hat ▸ List.mem_cons_self a t)
    rw [hana]
    refine ⟨{ a with performance := ShortsPerformance.VIRAL }, ?_, rfl⟩
    simp only [classifyShorts]
    refine List.mem_map.mpr ⟨a, hamem, ?_⟩
    have hidx : List.findIdx (fun s => decide (s.id = a.id))
        (sortDescBy (fun s : ShortsData => s.engagementRate)
          ((videos.filter (fun v => decide (0 < v.duration ∧ v.duration ≤ 60))).map
            (toShortsData subscriberCount))) = 0 := by
      rw [hat, List.findIdx_cons]
      simp
    simp only [hidx]
    norm_num [tierOfPercentile]

/-- The last element of a cons is the last element of its nonempty tail. -/
theorem getLast?_cons_of_ne_nil {α : Type} (a : α) (l : List α) (h : l ≠ []) :
    (a :: l).getLast? = l.getLast? := by
  cases l with
  | nil => exact absurd rfl h
  | cons b t => exact List.getLast?_cons_cons

/-- Head of a descending ordered insert: the inserted element wins ties. -/
theorem head?_orderedInsert {α : Type} (key : α → ℚ) (x : α) (s : List α) :
    (s.orderedInsert (descBy key) x).head? =
      some (match s.head? with
        | none => x
        | some y => if key y ≤ key x then x else y) := by
  cases s with
  | nil => rfl
  | cons y ys =>
    rw [List.orderedInsert]
    by_cases h : descBy key x y
    · rw [if_pos h, List.head?_cons, List.head?_cons]
      have h' : key y ≤ key x := h
      show some x = some (if key y ≤ key x then x else y)
      rw [if_pos h']
    · rw [if_neg h, List.head?_cons, List.head?_cons]
      have h' : ¬ key y ≤ key x := h
      show some y = some (if key y ≤ key x then x else y)
      rw [if_neg h']

/-- Last element of a descending ordered insert into a sorted list: the
existing last element wins ties. -/
theorem getLast?_orderedInsert {α : Type} (key : α → ℚ) (x : α) :
    ∀ (s : List α), List.Sorted (descBy key) s →
      (s.orderedInsert (descBy key) x).getLast? =
        some (match s.getLast? with
          | none => x
          | some z => if key z ≤ key x then z else x) := by
  intro s
  induction s with
  | nil => intro _; rfl
  | cons y ys ih =>
    intro hs
    rw [List.orderedInsert]
    by_cases h : descBy key x y
    · rw [if_pos h]
      have hyne : (y :: ys) ≠ ([] : List α) := by simp
      rw [getLast?_cons_of_ne_nil x (y :: ys) hyne]
      rw [List.getLast?_eq_getLast (y :: ys) hyne]
      have hzmem : (y :: ys).getLast hyne ∈ y :: ys := List.getLast_mem hyne
      have hzy : key ((y :: ys).getLast hyne) ≤ key y := by
        rcases List.mem_cons.mp hzmem with heq | hmem
        · rw [heq]
        · exact List.rel_of_sorted_cons hs _ hmem
      have hzx : key ((y :: ys).getLast hyne) ≤ key x := le_trans hzy h
      show some ((y :: ys).getLast hyne) =
        some (if key ((y :: ys).getLast hyne) ≤ key x then (y :: ys).getLast hyne else x)
      rw [if_pos hzx]
    · rw [if_neg h]
      have hne2 : ys.orderedInsert (descBy key) x ≠ [] := by
        intro hnil
        have hlen := List.orderedInsert_length (descBy key) ys x
        rw [hnil] at hlen
        simp at hlen
      rw [getLast?_cons_of_ne_nil y _ hne2, ih hs.of_cons]
      cases ys with
      | nil =>
        have h' : ¬ key y ≤ key x := h
        show some x = some (if key y ≤ key x then y else x)
        rw [if_neg h']
      | cons w ws => rw [List.getLast?_cons_cons]

/-- The head of the stable descending sort is the first occurrence of the
maximal key. -/
theorem head?_sortDescBy {α : Type} (key : α → ℚ) :
    ∀ l : List α, (sortDescBy key l).head? = firstMaxBy key l := by
  intro l
  induction l with
  | nil => rfl
  | cons x xs ih =>
    rw [sortDescBy, List.insertionSort]
    rw [show List.insertionSort (descBy key) xs = sortDescBy key xs from rfl]
    rw [head?_orderedInsert, ih, firstMaxBy]
    cases firstMaxBy key xs with
    | none => rfl
    | some m => rfl

/-- The last element of the stable descending sort is the last occurrence of
the minimal key. -/
theorem getLast?_sortDescBy {α : Type} (key : α → ℚ) :
    ∀ l : List α, (sortDescBy key l).getLast? = lastMinBy key l := by
  intro l
  induction l with
  | nil => rfl
  | cons x xs ih =>
    rw [sortDescBy, List.insertionSort]
    rw [show List.insertionSort (descBy key) xs = sortDescBy key xs from rfl]
    rw [getLast?_orderedInsert key x (sortDescBy key xs)
      (List.sorted_insertionSort (descBy key) xs), ih, lastMinBy]
    cases lastMinBy key xs with
    | none => rfl
    | some m => rfl

/-- `firstMaxBy` picks a maximal element strictly greater than everything
before it: the first occurrence of the maximum. -/
theorem firstMaxBy_spec {α : Type} (key : α → ℚ) :
    ∀ (l : List α), l ≠ [] →
      ∃ (i : ℕ) (hi : i < l.length),
        firstMaxBy key l = some (l.get ⟨i, hi⟩) ∧
        (∀ j (hj : j < l.length), key (l.get ⟨j, hj⟩) ≤ key (l.get ⟨i, hi⟩)) ∧
        (∀ j (hj : j < l.length), j < i → key (l.get ⟨j, hj⟩) < key (l.get ⟨i, hi⟩)) := by
  intro l
  induction l with
  | nil => intro h; exact absurd rfl h
  | cons x xs ih =>
    intro _
    rw [firstMaxBy]
    cases hfm : firstMaxBy key xs with
    | none =>
      cases xs with
      | nil =>
        refine ⟨0, by simp, rfl, ?_, ?_⟩
        · intro j hj
          have hj0 : j = 0 := by simpa using Nat.lt_one_iff.mp (by simpa using hj)
          subst hj0
          exact le_refl _
        · intro j hj hj0
          exact absurd hj0 (Nat.not_lt_zero j)
      | cons b t =>
        rw [firstMaxBy] at hfm
        cases h2 : firstMaxBy key t <;> simp [h2] at hfm
    | some m =>
      have hxsne : xs ≠ [] := by
        intro h
        subst h
        simp [firstMaxBy] at hfm
      obtain ⟨i, hi, heq, hmax, hstrict⟩ := ih hxsne
      have hm : m = xs.get ⟨i, hi⟩ := Option.some.inj (hfm.symm.trans heq)
      have hred : (match some m with
          | none => some x
          | some m => some (if key m ≤ key x then x else m)) =
          some (if key m ≤ key x then x else m) := rfl
      rw [hred]
      by_cases hcmp : key m ≤ key x
      · rw [if_pos hcmp]
        refine ⟨0, by simp, rfl, ?_, ?_⟩
        · intro j hj
          cases j with
          | zero => exact le_refl _
          | succ j =>
            have hj' : j < xs.length := Nat.lt_of_succ_lt_succ hj
            have h1 : (x :: xs).get ⟨j + 1, hj⟩ = xs.get ⟨j, hj'⟩ := rfl
            have h0 : (x :: xs).get ⟨0, by simp⟩ = x := rfl
            rw [h1, h0]
            exact le_trans (le_trans (hmax j hj') (le_of_eq (congrArg key hm.symm))) hcmp
        · intro j hj hj0
          exact absurd hj0 (Nat.not_lt_zero j)
      · rw [if_neg hcmp]
        have hxm : key x < key m := not_le.mp hcmp
        refine ⟨i + 1, Nat.succ_lt_succ hi, ?_, ?_, ?_⟩
        · have h1 : (x :: xs).get ⟨i + 1, Nat.succ_lt_succ hi⟩ = xs.get ⟨i, hi⟩ := rfl
          rw [h1, hm]
        · intro j hj
          have h2 : (x :: xs).get ⟨i + 1, Nat.succ_lt_succ hi⟩ = xs.get ⟨i, hi⟩ := rfl
          rw [h2]
          cases j with
          | zero =>
            have h0 : (x :: xs).get ⟨0, hj⟩ = x := rfl
            rw [h0, ← hm]
            exact le_of_lt hxm
          | succ j =>
            have hj' : j < xs.length := Nat.lt_of_succ_lt_succ hj
            have h1 : (x :: xs).get ⟨j + 1, hj⟩ = xs.get ⟨j, hj'⟩ := rfl
            rw [h1]
            exact hmax j hj'
        · intro j hj hjlt
          have h2 : (x :: xs).get ⟨i + 1, Nat.succ_lt_succ hi⟩ = xs.get ⟨i, hi⟩ := rfl
          rw [h2]
          cases j with
          | zero =>
            have h0 : (x :: xs).get ⟨0, hj⟩ = x := rfl
            rw [h0, ← hm]
            exact hxm
          | succ j =>
            have hj' : j < xs.length := Nat.lt_of_succ_lt_succ hj
            have h1 : (x :: xs).get ⟨j + 1, hj⟩ = xs.get ⟨j, hj'⟩ := rfl
            rw [h1]
            exact hstrict j hj' (Nat.lt_of_succ_lt_succ hjlt)

/-- `lastMinBy` picks a minimal element strictly smaller than everything
after it: the last occurrence of the minimum. -/
theorem lastMinBy_spec {α : Type} (key : α → ℚ) :
    ∀ (l : List α), l ≠ [] →
      ∃ (k : ℕ) (hk : k < l.length),
        lastMinBy key l = some (l.get ⟨k, hk⟩) ∧
        (∀ j (hj : j < l.length), key (l.get ⟨k, hk⟩) ≤ key (l.get ⟨j, hj⟩)) ∧
        (∀ j (hj : j < l.length), k < j → key (l.get ⟨k, hk⟩) < key (l.get ⟨j, hj⟩)) := by
  intro l
  induction l with
  | nil => intro h; exact absurd rfl h
  | cons x xs ih =>
    intro _
    rw [lastMinBy]
    cases hlm : lastMinBy key xs with
    | none =>
      cases xs with
      | nil =>
        refine ⟨0, by simp, rfl, ?_, ?_⟩
        · intro j hj
          have hj0 : j = 0 := by simpa using Nat.lt_one_iff.mp (by simpa using hj)
          subst hj0
          exact le_refl _
        · intro j hj hj0
          have hj1 : j < 1 := by simpa using hj
          omega
      | cons b t =>
        rw [lastMinBy] at hlm
        cases h2 : lastMinBy key t <;> simp [h2] at hlm
    | some m =>
      have hxsne : xs ≠ [] := by
        intro h
        subst h
        simp [lastMinBy] at hlm
      obtain ⟨k, hk, heq, hmin, hstrict⟩ := ih hxsne
      have hm : m = xs.get ⟨k, hk⟩ := Option.some.inj (hlm.symm.trans heq)
      have hred : (match some m with
          | none => some x
          | some m => some (if key m ≤ key x then m else x)) =
          some (if key m ≤ key x then m else x) := rfl
      rw [hred]
      by_cases hcmp : key m ≤ key x
      · rw [if_pos hcmp]
        refine ⟨k + 1, Nat.succ_lt_succ hk, ?_, ?_, ?_⟩
        · have h1 : (x :: xs).get ⟨k + 1, Nat.succ_lt_succ hk⟩ = xs.get ⟨k, hk⟩ := rfl
          rw [h1, hm]
        · intro j hj
          have h2 : (x :: xs).get ⟨k + 1, Nat.succ_lt_succ hk⟩ = xs.get ⟨k, hk⟩ := rfl
          rw [h2]
          cases j with
          | zero =>
            have h0 : (x :: xs).get ⟨0, hj⟩ = x := rfl
            rw [h0, ← hm]
            exact hcmp
          | succ j =>
            have hj' : j < xs.length := Nat.lt_of_succ_lt_succ hj
            have h1 : (x :: xs).get ⟨j + 1, hj⟩ = xs.get ⟨j, hj'⟩ := rfl
            rw [h1]
            exact hmin j hj'
        · intro j hj hjlt
          have h2 : (x :: xs).get ⟨k + 1, Nat.succ_lt_succ hk⟩ = xs.get ⟨k, hk⟩ := rfl
          rw [h2]
          cases j with
          | zero => omega
          | succ j =>
            have hj' : j < xs.length := Nat.lt_of_succ_lt_succ hj
            have h1 : (x :: xs).get ⟨j + 1, hj⟩ = xs.get ⟨j, hj'⟩ := rfl
            rw [h1]
            exact hstrict j hj' (Nat.lt_of_succ_lt_succ hjlt)
      · rw [if_neg hcmp]
        have hmx : key x < key m := not_le.mp hcmp
        refine ⟨0, by simp, rfl, ?_, ?_⟩
        · intro j hj
          cases j with
          | zero => exact le_refl _
          | succ j =>
            have hj' : j < xs.length := Nat.lt_of_succ_lt_succ hj
            have h1 : (x :: xs).get ⟨j + 1, hj⟩ = xs.get ⟨j, hj'⟩ := rfl
            have h0 : (x :: xs).get ⟨0, by simp⟩ = x := rfl
            rw [h1, h0]
            exact le_trans (le_of_lt hmx) (le_of_eq (congrArg key hm) |>.trans (hmin j hj'))
        · intro j hj hj0
          cases j with
          | zero => omega
          | succ j =>
            have hj' : j < xs.length := Nat.lt_of_succ_lt_succ hj
            have h1 : (x :: xs).get ⟨j + 1, hj⟩ = xs.get ⟨j, hj'⟩ := rfl
            have h0 : (x :: xs).get ⟨0, by simp⟩ = x := rfl
            rw [h1, h0]
            exact lt_of_lt_of_le hmx ((le_of_eq (congrArg key hm)).trans (hmin j hj'))

/-- C8 amended: for every non-empty batch the best performer is the first
occurrence of the maximal `viewCount` and the worst performer the last
occurrence of the minimal `viewCount`, which equals one stable sort by
`viewCount` descending taking the first (best) and last (worst) elements. -/
theorem generateShortsSummary_performers (l : List ShortsData) (hne : l ≠ []) :
    (generateShortsSummary l).bestPerformer =
      (sortDescBy (fun s => s.viewCount) l).head? ∧
    (generateShortsSummary l).worstPerformer =
      (sortDescBy (fun s => s.viewCount) l).getLast? ∧
    (∃ (i : ℕ) (hi : i < l.length),
      (generateShortsSummary l).bestPerformer = some (l.get ⟨i, hi⟩) ∧
      (∀ j (hj : j < l.length), (l.get ⟨j, hj⟩).viewCount ≤ (l.get ⟨i, hi⟩).viewCount) ∧
      (∀ j (hj : j < l.length), j < i →
        (l.get ⟨j, hj⟩).viewCount < (l.get ⟨i, hi⟩).viewCount)) ∧
    (∃ (k : ℕ) (hk : k < l.length),
      (generateShortsSummary l).worstPerformer = some (l.get ⟨k, hk⟩) ∧
      (∀ j (hj : j < l.length), (l.get ⟨k, hk⟩).viewCount ≤ (l.get ⟨j, hj⟩).viewCount) ∧
      (∀ j (hj : j < l.length), k < j →
        (l.get ⟨k, hk⟩).viewCount < (l.get ⟨j, hj⟩).viewCount)) := by
  have h0 : ¬ l.length = 0 := fun h => hne (List.length_eq_zero.mp h)
  have hbest : (generateShortsSummary l).bestPerformer =
      (sortDescBy (fun s : ShortsData => s.viewCount) l).head? := by
    rw [generateShortsSummary, if_neg h0]
  have hworst : (generateShortsSummary l).worstPerformer =
      (sortDescBy (fun s : ShortsData => s.viewCount) l).getLast? := by
    rw [generateShortsSummary, if_neg h0]
  refine ⟨hbest, hworst, ?_, ?_⟩
  · obtain ⟨i, hi, heq, hmax, hstrict⟩ :=
      firstMaxBy_spec (fun s : ShortsData => s.viewCount) l hne
    exact ⟨i, hi, by rw [hbest, head?_sortDescBy, heq], hmax, hstrict⟩
  · obtain ⟨k, hk, heq, hmin, hstrict⟩ :=
      lastMinBy_spec (fun s : ShortsData => s.viewCount) l hne
    exact ⟨k, hk, by rw [hworst, getLast?_sortDescBy, heq], hmin, hstrict⟩

/-- C8 counterexample: on the tied batch the code's best performer is `y`
(first occurrence of the maximal view count), but the last element of the
stable ascending sort is `z` — the claimed equivalence with an ascending
stable sort fails on ties. -/
theorem performers_tie_counterexample :
    (generateShortsSummary tiedShorts).bestPerformer = some (viewShort (r"y") 5) ∧
    (sortAscBy (fun s => s.viewCount) tiedShorts).getLast? = some (viewShort (r"z") 5) ∧
    viewShort (r"y") 5 ≠ viewShort (r"z") 5 := by
  refine ⟨?_, ?_, ?_⟩
  · rw [generateShortsSummary, if_neg (by norm_num [tiedShorts])]
    norm_num [sortDescBy, List.insertionSort, List.orderedInsert, descBy, tiedShorts, viewShort]
  · norm_num [sortAscBy, List.insertionSort, List.orderedInsert, ascBy, tiedShorts, viewShort]
  · intro h
    have hid : (viewShort (r"y") 5).id = (viewShort (r"z") 5).id := congrArg (fun s => s.id) h
    simp [viewShort] at hid

/-- Witness for C8's amended theorem on a concrete tied batch. -/
theorem generateShortsSummary_performers_witness :
    (generateShortsSummary tiedShorts).bestPerformer =
      (sortDescBy (fun s => s.viewCount) tiedShorts).head? :=
  (generateShortsSummary_performers tiedShorts (by simp [tiedShorts])).1

/-- Witness for C2 at a concrete singleton batch. -/
theorem classifyShorts_spec_witness :
    classifyShorts [viewShort (r"w") 3] =
      [{ viewShort (r"w") 3 with performance := ShortsPerformance.VIRAL }] :=
  (classifyShorts_spec [viewShort (r"w") 3] (by simp) (by simp)).2.1 (viewShort (r"w") 3)

/-- Witness for C10 on a concrete one-video input. -/
theorem analyzeShortsPerformance_viral_witness :
    ∃ y ∈ analyzeShortsPerformance [va] none,
      y.performance = ShortsPerformance.VIRAL :=
  analyzeShortsPerformance_viral [va] none (by decide)

/-- C7: `parseDuration` maps every canonical compact encoding to
`hours * 3600 + minutes * 60 + seconds` with missing components defaulting to
0, returns 0 on any string without the `PT` marker (never throws), and on the
cited examples returns 5445, 300, 0 and 0. -/
theorem parseDuration_spec :
    (∀ h m s : Option ℕ, parseDuration (encodeDuration h m s) =
      h.getD 0 * 3600 + m.getD 0 * 60 + s.getD 0) ∧
    (∀ str : String, findPT str.data = none → parseDuration str = 0) ∧
    parseDuration (r"PT1H30M45S") = 5445 ∧
    parseDuration (r"PT5M") = 300 ∧
    parseDuration (r"") = 0 ∧
    parseDuration (r"one hour and a half") = 0 := by
  refine ⟨parseDuration_encode, ?_, by decide, by decide, by decide, by decide⟩
  intro str hnone
  unfold parseDuration
  rw [hnone]

/-- Witness for C7: a concrete round-trip and a concrete unparsable string. -/
theorem parseDuration_spec_witness :
    parseDuration (encodeDuration (some 2) none (some 5)) = 7205 ∧
    parseDuration (r"xyz") = 0 := by
  constructor
  · rw [parseDuration_spec.1]
    decide
  · exact parseDuration_spec.2.1 (r"xyz") (by decide)

end YoutubeStrategy
